import Mathlib

/-!
Formal model of the Reterm-Of-The-King repository.

The repository's `src/main.rs` contains the windowing / GPU front end
(`State::resize`, `State::input`, `State::render` and the winit event
loop).  Those parts are embedded directly from the source.

The PTY core described by the specification (PTY Session, Output Pump,
Scrollback Buffer, Input Encoder) is not present under `src/`; its
definitions below are modelled from the specification text, each marked
`Modelled from the spec:` in its doc comment.

Bytes are modelled as natural numbers (values below 256 in all intended
uses); byte strings are lists of naturals.
-/

/-- The last `n` elements of a list: the list truncated from the front so
that at most `n` elements remain. -/
def takeLastN (n : Nat) (l : List Nat) : List Nat :=
  l.drop (l.length - n)

theorem takeLastN_length_le (n : Nat) (l : List Nat) :
    (takeLastN n l).length ≤ n := by
  simp [takeLastN]
  omega

theorem takeLastN_of_le (n : Nat) (l : List Nat) (h : l.length ≤ n) :
    takeLastN n l = l := by
  simp [takeLastN, Nat.sub_eq_zero_of_le h]

/-- Truncating from the front is insensitive to an earlier truncation:
keeping the last `n` of `takeLastN n a ++ b` is the same as keeping the
last `n` of `a ++ b`. -/
theorem takeLastN_append_takeLastN (n : Nat) (a b : List Nat) :
    takeLastN n (takeLastN n a ++ b) = takeLastN n (a ++ b) := by
  simp only [takeLastN, List.length_append, List.length_drop]
  rw [List.drop_append_eq_append_drop, List.drop_append_eq_append_drop,
    List.drop_drop]
  simp only [List.length_drop]
  congr 1 <;> congr 1 <;> omega

/-- When the suffix `b` fits entirely, truncating `a ++ b` from the front
keeps all of `b`, preceded by the tail of `a` that still fits. -/
theorem takeLastN_append_of_le (n : Nat) (a b : List Nat)
    (h : b.length ≤ n) :
    takeLastN n (a ++ b) = takeLastN (n - b.length) a ++ b := by
  simp only [takeLastN, List.length_append]
  rw [List.drop_append_eq_append_drop]
  have h2 : a.length + b.length - n - a.length = 0 := by omega
  rw [h2, List.drop_zero]
  congr 2
  omega

/-- A UTF-8 continuation byte (0x80–0xBF). -/
def isCont (b : Nat) : Bool := 0x80 ≤ b && b < 0xC0

/-- The UTF-8 encoding of the replacement placeholder U+FFFD. -/
def repl : List Nat := [0xEF, 0xBF, 0xBD]

/-- Modelled from the spec: the best-effort decoding used by the
Scrollback Buffer (the decoder itself is not under `src/`).  The decoder
walks the byte string keeping the bytes `pending` of a partially read
multi-byte sequence together with the number `need` of continuation
bytes still required; a completed sequence is emitted verbatim, an
invalid byte sequence is replaced with the placeholder `repl` rather
than rejected. -/
def decodeAux : List Nat → Nat → List Nat → List Nat
  | _, 0, [] => []
  | _, _ + 1, [] => repl
  | _, 0, b :: l =>
    if b < 0x80 then b :: decodeAux [] 0 l
    else if 0xC2 ≤ b && b ≤ 0xDF then decodeAux [b] 1 l
    else if 0xE0 ≤ b && b ≤ 0xEF then decodeAux [b] 2 l
    else if 0xF0 ≤ b && b ≤ 0xF4 then decodeAux [b] 3 l
    else repl ++ decodeAux [] 0 l
  | pending, 1, b :: l =>
    if isCont b then pending ++ b :: decodeAux [] 0 l
    else repl ++
      (if b < 0x80 then b :: decodeAux [] 0 l
       else if 0xC2 ≤ b && b ≤ 0xDF then decodeAux [b] 1 l
       else if 0xE0 ≤ b && b ≤ 0xEF then decodeAux [b] 2 l
       else if 0xF0 ≤ b && b ≤ 0xF4 then decodeAux [b] 3 l
       else repl ++ decodeAux [] 0 l)
  | pending, need + 2, b :: l =>
    if isCont b then decodeAux (pending ++ [b]) (need + 1) l
    else repl ++
      (if b < 0x80 then b :: decodeAux [] 0 l
       else if 0xC2 ≤ b && b ≤ 0xDF then decodeAux [b] 1 l
       else if 0xE0 ≤ b && b ≤ 0xEF then decodeAux [b] 2 l
       else if 0xF0 ≤ b && b ≤ 0xF4 then decodeAux [b] 3 l
       else repl ++ decodeAux [] 0 l)

/-- Modelled from the spec: best-effort lossy text decoding of one byte
chunk, with replacement placeholders for invalid sequences. -/
def decodeLossy (l : List Nat) : List Nat := decodeAux [] 0 l

/-- Well-formedness checker for UTF-8 byte strings, with `need`
outstanding continuation bytes. -/
def validUtf8Aux : Nat → List Nat → Bool
  | 0, [] => true
  | 0, b :: l =>
    if b < 0x80 then validUtf8Aux 0 l
    else if 0xC2 ≤ b && b ≤ 0xDF then validUtf8Aux 1 l
    else if 0xE0 ≤ b && b ≤ 0xEF then validUtf8Aux 2 l
    else if 0xF0 ≤ b && b ≤ 0xF4 then validUtf8Aux 3 l
    else false
  | _ + 1, [] => false
  | k + 1, b :: l => isCont b && validUtf8Aux k l

/-- A byte string is well-formed UTF-8. -/
def validUtf8 (l : List Nat) : Bool := validUtf8Aux 0 l

theorem validUtf8_repl_append (l : List Nat) :
    validUtf8 (repl ++ l) = validUtf8 l := by
  simp [validUtf8, repl, validUtf8Aux, isCont]

theorem vAux_ascii (b : Nat) (h : b < 0x80) (t : List Nat) :
    validUtf8Aux 0 (b :: t) = validUtf8Aux 0 t := by
  simp [validUtf8Aux, h]

theorem vAux_lead2 (b : Nat) (h1 : 0xC2 ≤ b) (h2 : b ≤ 0xDF) (t : List Nat) :
    validUtf8Aux 0 (b :: t) = validUtf8Aux 1 t := by
  simp [validUtf8Aux, h1, h2, show ¬ b < 0x80 by omega]

theorem vAux_lead3 (b : Nat) (h1 : 0xE0 ≤ b) (h2 : b ≤ 0xEF) (t : List Nat) :
    validUtf8Aux 0 (b :: t) = validUtf8Aux 2 t := by
  simp [validUtf8Aux, h1, h2, show ¬ b < 0x80 by omega,
    show ¬ b ≤ 0xDF by omega]

theorem vAux_lead4 (b : Nat) (h1 : 0xF0 ≤ b) (h2 : b ≤ 0xF4) (t : List Nat) :
    validUtf8Aux 0 (b :: t) = validUtf8Aux 3 t := by
  simp [validUtf8Aux, h1, h2, show ¬ b < 0x80 by omega,
    show ¬ b ≤ 0xDF by omega, show ¬ b ≤ 0xEF by omega]

theorem vAux_cont (k b : Nat) (t : List Nat) :
    validUtf8Aux (k + 1) (b :: t) = (isCont b && validUtf8Aux k t) := by
  simp [validUtf8Aux]

/-- Validity of the classification chain that starts decoding a fresh
byte, given validity of each recursive continuation. -/
theorem chainValid (b : Nat) (l : List Nat)
    (ih0 : (∀ t, validUtf8Aux 0 ([] ++ t) = validUtf8Aux 0 t) →
      validUtf8 (decodeAux [] 0 l) = true)
    (ih1 : (∀ t, validUtf8Aux 0 ([b] ++ t) = validUtf8Aux 1 t) →
      validUtf8 (decodeAux [b] 1 l) = true)
    (ih2 : (∀ t, validUtf8Aux 0 ([b] ++ t) = validUtf8Aux 2 t) →
      validUtf8 (decodeAux [b] 2 l) = true)
    (ih3 : (∀ t, validUtf8Aux 0 ([b] ++ t) = validUtf8Aux 3 t) →
      validUtf8 (decodeAux [b] 3 l) = true) :
    validUtf8
      (if b < 0x80 then b :: decodeAux [] 0 l
       else if 0xC2 ≤ b && b ≤ 0xDF then decodeAux [b] 1 l
       else if 0xE0 ≤ b && b ≤ 0xEF then decodeAux [b] 2 l
       else if 0xF0 ≤ b && b ≤ 0xF4 then decodeAux [b] 3 l
       else repl ++ decodeAux [] 0 l) = true := by
  by_cases h1 : b < 0x80
  · rw [if_pos h1]
    have := vAux_ascii b h1 (decodeAux [] 0 l)
    simp only [validUtf8] at ih0 ⊢
    rw [this]
    exact ih0 (by simp)
  · rw [if_neg h1]
    by_cases h2 : (0xC2 ≤ b && b ≤ 0xDF) = true
    · rw [if_pos h2]
      simp only [Bool.and_eq_true, decide_eq_true_eq] at h2
      exact ih1 (fun t => by simpa using vAux_lead2 b h2.1 h2.2 t)
    · rw [if_neg h2]
      by_cases h3 : (0xE0 ≤ b && b ≤ 0xEF) = true
      · rw [if_pos h3]
        simp only [Bool.and_eq_true, decide_eq_true_eq] at h3
        exact ih2 (fun t => by simpa using vAux_lead3 b h3.1 h3.2 t)
      · rw [if_neg h3]
        by_cases h4 : (0xF0 ≤ b && b ≤ 0xF4) = true
        · rw [if_pos h4]
          simp only [Bool.and_eq_true, decide_eq_true_eq] at h4
          exact ih3 (fun t => by simpa using vAux_lead4 b h4.1 h4.2 t)
        · rw [if_neg h4]
          rw [validUtf8_repl_append]
          exact ih0 (by simp)

theorem decodeAux_valid :
    ∀ (p : List Nat) (need : Nat) (l : List Nat),
      (∀ t, validUtf8Aux 0 (p ++ t) = validUtf8Aux need t) →
      validUtf8 (decodeAux p need l) = true := by
  intro p need l
  induction p, need, l using decodeAux.induct <;> intro hp
  case case1 => simp [decodeAux, validUtf8, validUtf8Aux]
  case case2 => simp [decodeAux, validUtf8, repl, validUtf8Aux, isCont]
  case case3 x b l h ih =>
    simp only [decodeAux]
    rw [if_pos h]
    simp only [validUtf8]
    rw [vAux_ascii b h]
    exact ih (by simp)
  case case4 x b l h1 h2 ih =>
    simp only [decodeAux]
    rw [if_neg h1, if_pos h2]
    simp only [Bool.and_eq_true, decide_eq_true_eq] at h2
    exact ih (fun t => by simpa using vAux_lead2 b h2.1 h2.2 t)
  case case5 x b l h1 h2 h3 ih =>
    simp only [decodeAux]
    rw [if_neg h1, if_neg h2, if_pos h3]
    simp only [Bool.and_eq_true, decide_eq_true_eq] at h3
    exact ih (fun t => by simpa using vAux_lead3 b h3.1 h3.2 t)
  case case6 x b l h1 h2 h3 h4 ih =>
    simp only [decodeAux]
    rw [if_neg h1, if_neg h2, if_neg h3, if_pos h4]
    simp only [Bool.and_eq_true, decide_eq_true_eq] at h4
    exact ih (fun t => by simpa using vAux_lead4 b h4.1 h4.2 t)
  case case7 x b l h1 h2 h3 h4 ih =>
    simp only [decodeAux]
    rw [if_neg h1, if_neg h2, if_neg h3, if_neg h4, validUtf8_repl_append]
    exact ih (by simp)
  case case8 pending b l hc ih =>
    simp only [decodeAux]
    rw [if_pos hc]
    have hv : validUtf8 (pending ++ b :: decodeAux [] 0 l)
        = validUtf8 (decodeAux [] 0 l) := by
      simp only [validUtf8]
      rw [hp (b :: decodeAux [] 0 l), vAux_cont, hc, Bool.true_and]
    rw [hv]
    exact ih (by simp)
  case case9 pending b l hc ih0 ih1 ih2 ih3 =>
    simp only [decodeAux]
    rw [if_neg hc, validUtf8_repl_append]
    exact chainValid b l ih0 ih1 ih2 ih3
  case case10 pending need b l hc ih =>
    simp only [decodeAux]
    rw [if_pos hc]
    refine ih ?_
    intro t
    rw [List.append_assoc, List.singleton_append, hp (b :: t), vAux_cont,
      hc, Bool.true_and]
  case case11 pending need b l hc ih0 ih1 ih2 ih3 =>
    simp only [decodeAux]
    rw [if_neg hc, validUtf8_repl_append]
    exact chainValid b l ih0 ih1 ih2 ih3

/-- The lossy decoder only ever produces well-formed UTF-8: malformed
input degrades into the replacement placeholder, never into an error or
malformed output. -/
theorem validUtf8_decodeLossy (l : List Nat) :
    validUtf8 (decodeLossy l) = true :=
  decodeAux_valid [] 0 l (by simp)

/-- Modelled from the spec: the Scrollback Buffer (not under `src/`), a
bounded-size accumulator of received bytes with FIFO trimming.
`content` is the retained text (as bytes), `maxLen` the configured
maximum retained byte length. -/
structure Scrollback where
  content : List Nat
  maxLen : Nat

/-- Modelled from the spec: `append(chunk)` decodes the byte chunk as
text (best-effort, with replacement placeholders), appends it to the
retained content, and evicts bytes from the front until back under the
configured maximum. -/
def Scrollback.append (s : Scrollback) (chunk : List Nat) : Scrollback :=
  { s with content := takeLastN s.maxLen (s.content ++ decodeLossy chunk) }

/-- Modelled from the spec: `snapshot() -> text` returns the retained
content. -/
def Scrollback.snapshot (s : Scrollback) : List Nat := s.content

/-- A freshly created Scrollback Buffer with maximum length `m`. -/
def Scrollback.empty (m : Nat) : Scrollback := ⟨[], m⟩

theorem Scrollback.append_maxLen (s : Scrollback) (chunk : List Nat) :
    (s.append chunk).maxLen = s.maxLen := rfl

theorem Scrollback.foldl_append_content (chunks : List (List Nat)) :
    ∀ (s : Scrollback), s.content.length ≤ s.maxLen →
      (chunks.foldl Scrollback.append s).content
        = takeLastN s.maxLen (s.content ++ (chunks.map decodeLossy).flatten) := by
  induction chunks with
  | nil =>
    intro s hs
    simp [takeLastN_of_le _ _ hs]
  | cons c cs ih =>
    intro s hs
    rw [List.foldl_cons, ih (s.append c) (takeLastN_length_le _ _),
      Scrollback.append_maxLen]
    show takeLastN s.maxLen
        (takeLastN s.maxLen (s.content ++ decodeLossy c) ++ _) = _
    rw [takeLastN_append_takeLastN, List.map_cons, List.flatten_cons]
    rw [List.append_assoc]

/-- C1: for every sequence of Chunks appended to the Scrollback Buffer,
the final content returned by `snapshot` equals the concatenation of all
chunk texts in append order, decoded with a replacement placeholder for
invalid byte sequences, and truncated from the front to the configured
maximum length. -/
theorem scrollback_snapshot_eq_concat_trunc (m : Nat)
    (chunks : List (List Nat)) :
    (chunks.foldl Scrollback.append (Scrollback.empty m)).snapshot
      = takeLastN m (chunks.map decodeLossy).flatten := by
  rw [Scrollback.snapshot,
    Scrollback.foldl_append_content chunks (Scrollback.empty m) (by simp [Scrollback.empty])]
  simp [Scrollback.empty]

/-- C2 as stated fails: with maximum 1, appending A = [0x61] then
B = [0x62, 0x63] (so len A + len B > 1), the resulting content does not
end with all of B. -/
theorem scrollback_fifo_counterexample :
    ([0x61].length + [0x62, 0x63].length > 1) ∧
    ¬ [0x62, 0x63] <:+
      (((Scrollback.empty 1).append [0x61]).append [0x62, 0x63]).snapshot := by
  decide

/-- C2 amended: the retained length never exceeds the configured maximum
after any append, and eviction is FIFO: for chunks A then B whose decoded
lengths together exceed the maximum, provided B alone fits within the
maximum, the resulting content is all of B preceded by the tail of A that
fits. -/
theorem scrollback_fifo_amended :
    (∀ (s : Scrollback) (c : List Nat),
      ((s.append c).snapshot).length ≤ s.maxLen) ∧
    (∀ (m : Nat) (a b : List Nat),
      (decodeLossy a).length + (decodeLossy b).length > m →
      (decodeLossy b).length ≤ m →
      (((Scrollback.empty m).append a).append b).snapshot
        = takeLastN (m - (decodeLossy b).length) (decodeLossy a)
          ++ decodeLossy b) := by
  constructor
  · intro s c
    exact takeLastN_length_le _ _
  · intro m a b _hgt hb
    show takeLastN m (takeLastN m ([] ++ decodeLossy a) ++ decodeLossy b) = _
    rw [takeLastN_append_takeLastN, List.nil_append,
      takeLastN_append_of_le m (decodeLossy a) (decodeLossy b) hb]

theorem scrollback_fifo_amended_witness :
    ((decodeLossy [0x61, 0x62]).length + (decodeLossy [0x63]).length > 2) ∧
    ((decodeLossy [0x63]).length ≤ 2) ∧
    (((Scrollback.empty 2).append [0x61, 0x62]).append [0x63]).snapshot
      = takeLastN (2 - (decodeLossy [0x63]).length) (decodeLossy [0x61, 0x62])
        ++ decodeLossy [0x63] :=
  ⟨by decide, by decide,
    scrollback_fifo_amended.2 2 [0x61, 0x62] [0x63] (by decide) (by decide)⟩

/-- C5: Scrollback append never fails: for every byte chunk, including
ones containing malformed byte sequences, append returns a buffer, and
invalid sequences degrade into replacement placeholders: the decoded
text appended to the content is always well-formed. -/
theorem scrollback_append_never_fails (s : Scrollback) (chunk : List Nat) :
    (∃ r : Scrollback, s.append chunk = r) ∧
    validUtf8 (decodeLossy chunk) = true :=
  ⟨⟨s.append chunk, rfl⟩, validUtf8_decodeLossy chunk⟩

/-- Modelled from the spec: an abstract input event consumed by the
Input Encoder (not under `src/`): printable text, a named control key,
an arrow key, a control-modified letter (by its ASCII code), or any
other, unmapped, event. -/
inductive KeyEvent where
  | text (bytes : List Nat)
  | enter
  | tab
  | backspace
  | arrowUp
  | arrowDown
  | arrowRight
  | arrowLeft
  | ctrl (letter : Nat)
  | unmapped
deriving DecidableEq

namespace InputEncoder

/-- Modelled from the spec: `encode(event) -> bytes`, the pure stateless
mapping table of the Input Encoder (not under `src/`): printable text is
sent verbatim, Enter/Tab/Backspace map to 0x0A/0x09/0x7F, arrow keys to
`ESC [ A/B/C/D`, Ctrl-C/D/L to 0x03/0x04/0x0C, and any unmapped event to
the empty byte sequence. -/
def encode : KeyEvent → List Nat
  | .text bs => bs
  | .enter => [0x0A]
  | .tab => [0x09]
  | .backspace => [0x7F]
  | .arrowUp => [0x1B, 0x5B, 0x41]
  | .arrowDown => [0x1B, 0x5B, 0x42]
  | .arrowRight => [0x1B, 0x5B, 0x43]
  | .arrowLeft => [0x1B, 0x5B, 0x44]
  | .ctrl c =>
    if c = 0x43 then [0x03]
    else if c = 0x44 then [0x04]
    else if c = 0x4C then [0x0C]
    else []
  | .unmapped => []

/-- The encoder applied to each event of a history, in order. -/
def encodeAll (events : List KeyEvent) : List (List Nat) :=
  events.map encode

end InputEncoder

/-- C3: `encode` maps Enter to exactly 0x0A, Tab to 0x09, Backspace to
0x7F, ArrowUp to exactly 0x1B 0x5B 0x41, and any unmapped event (the
unmapped constructor, or a control letter outside C/D/L) to the empty
byte sequence. -/
theorem encoder_key_bytes :
    InputEncoder.encode .enter = [0x0A] ∧
    InputEncoder.encode .tab = [0x09] ∧
    InputEncoder.encode .backspace = [0x7F] ∧
    InputEncoder.encode .arrowUp = [0x1B, 0x5B, 0x41] ∧
    InputEncoder.encode .unmapped = [] ∧
    (∀ c, c ≠ 0x43 → c ≠ 0x44 → c ≠ 0x4C →
      InputEncoder.encode (.ctrl c) = []) := by
  refine ⟨rfl, rfl, rfl, rfl, rfl, ?_⟩
  intro c h1 h2 h3
  simp [InputEncoder.encode, h1, h2, h3]

theorem encoder_key_bytes_witness :
    (0x5A : Nat) ≠ 0x43 ∧ (0x5A : Nat) ≠ 0x44 ∧ (0x5A : Nat) ≠ 0x4C ∧
    InputEncoder.encode (.ctrl 0x5A) = [] :=
  ⟨by decide, by decide, by decide,
    encoder_key_bytes.2.2.2.2.2 0x5A (by decide) (by decide) (by decide)⟩

/-- C6: input encoding is deterministic and stateless: the bytes
produced for an event appended to any history of prior encode calls
depend only on that event, so two calls with the same event yield
identical output regardless of what was encoded before. -/
theorem encoder_stateless (evs1 evs2 : List KeyEvent) (e : KeyEvent) :
    (InputEncoder.encodeAll (evs1 ++ [e])).getLast?
      = some (InputEncoder.encode e) ∧
    (InputEncoder.encodeAll (evs1 ++ [e])).getLast?
      = (InputEncoder.encodeAll (evs2 ++ [e])).getLast? := by
  constructor <;> simp [InputEncoder.encodeAll]

/-- One read outcome observed by the Output Pump on the master
descriptor: a successful read of n > 0 bytes, a transient error
(retried after a brief sleep), or a successful read of length 0. -/
inductive ReadResult where
  | data (bytes : List Nat)
  | transient
  | eof
deriving DecidableEq

/-- A Chunk delivered through the queue: a byte chunk from one
successful read, or the final end-of-stream marker. -/
inductive Chunk where
  | data (bytes : List Nat)
  | eofMarker
deriving DecidableEq

namespace OutputPump

/-- Modelled from the spec: the Output Pump loop (not under `src/`),
viewed as the sequence of Chunks it delivers to the sink for a given
sequence of read outcomes: a read of n > 0 bytes emits exactly that
slice as one Chunk, a transient error emits nothing and retries, and a
zero-length read emits one final end-of-stream marker Chunk and
terminates the loop. -/
def run : List ReadResult → List Chunk
  | [] => []
  | .data bs :: rest => .data bs :: run rest
  | .transient :: rest => run rest
  | .eof :: _ => [.eofMarker]

end OutputPump

/-- C4: when a read returns zero bytes, the pump emits exactly one final
end-of-stream marker Chunk and then terminates: no marker is emitted
before the zero-length read, and nothing read afterwards is ever
delivered (the result does not depend on `post`). -/
theorem pump_eof_terminates (pre post : List ReadResult)
    (h : ReadResult.eof ∉ pre) :
    OutputPump.run (pre ++ ReadResult.eof :: post)
      = OutputPump.run pre ++ [Chunk.eofMarker] ∧
    Chunk.eofMarker ∉ OutputPump.run pre := by
  induction pre with
  | nil => simp [OutputPump.run]
  | cons r rest ih =>
    simp only [List.mem_cons, not_or] at h
    obtain ⟨hr, hrest⟩ := h
    obtain ⟨ih1, ih2⟩ := ih hrest
    cases r with
    | data bs => simpa [OutputPump.run, ih1] using ih2
    | transient => simpa [OutputPump.run, ih1] using ih2
    | eof => exact absurd rfl hr

theorem pump_eof_terminates_witness :
    ReadResult.eof ∉ [ReadResult.data [0x68], ReadResult.transient] ∧
    OutputPump.run ([ReadResult.data [0x68], ReadResult.transient]
        ++ ReadResult.eof :: [ReadResult.data [0x69]])
      = OutputPump.run [ReadResult.data [0x68], ReadResult.transient]
        ++ [Chunk.eofMarker] ∧
    Chunk.eofMarker ∉
      OutputPump.run [ReadResult.data [0x68], ReadResult.transient] := by
  refine ⟨by decide, ?_⟩
  exact pump_eof_terminates [ReadResult.data [0x68], ReadResult.transient]
    [ReadResult.data [0x69]] (by decide)

/-- The initial terminal geometry (rows, columns, pixel width/height,
advisory only). -/
structure Geometry where
  rows : Nat
  cols : Nat
  pixelWidth : Nat
  pixelHeight : Nat
deriving DecidableEq

/-- Modelled from the spec: one child shell attached to a PTY; the
parent retains the master descriptor and the child process identifier. -/
structure Session where
  masterFd : Nat
  childPid : Nat
  geometry : Geometry
deriving DecidableEq

/-- The error taxonomy of session creation: PTY or process creation
failure is fatal at startup. -/
inductive SessionError where
  | resourceError
deriving DecidableEq

/-- The outcome of the OS pseudo-terminal allocation: a master
descriptor and a forked child process, or resource exhaustion. -/
inductive PtyAllocResult where
  | ok (masterFd : Nat) (childPid : Nat)
  | fail
deriving DecidableEq

/-- Modelled from the spec: `create(shell_path, geometry) -> Session |
Error` (not under `src/`): on successful PTY allocation the parent
retains only the master descriptor and the child process identifier; on
allocation failure it signals `ResourceError` and aborts startup.  The
shell path only affects the child's program image, never the parent's
view of the Session. -/
def Session.create (alloc : PtyAllocResult) (_shellPath : List Nat)
    (geom : Geometry) : Except SessionError Session :=
  match alloc with
  | .ok fd pid => .ok { masterFd := fd, childPid := pid, geometry := geom }
  | .fail => .error .resourceError

/-- C7: session creation returns either a Session or an Error: on
successful PTY allocation it yields a Session holding the master
descriptor and the child process identifier, and on PTY allocation
failure it signals `ResourceError`. -/
theorem session_create_spec :
    (∀ (fd pid : Nat) (sh : List Nat) (geom : Geometry),
      Session.create (.ok fd pid) sh geom
        = .ok { masterFd := fd, childPid := pid, geometry := geom }) ∧
    (∀ (sh : List Nat) (geom : Geometry),
      Session.create .fail sh geom = .error .resourceError) :=
  ⟨fun _ _ _ _ => rfl, fun _ _ => rfl⟩

/-- `winit::dpi::PhysicalSize<u32>`. -/
structure PhysicalSize where
  width : Nat
  height : Nat
deriving DecidableEq

/-- `wgpu::SurfaceConfiguration`; fields other than width and height are
opaque to the embedded code, so they are modelled abstractly. -/
structure SurfaceConfiguration where
  usage : Nat
  format : Nat
  width : Nat
  height : Nat
  present_mode : Nat
  alpha_mode : Nat
  view_formats : List Nat
deriving DecidableEq

/-- The `State` struct of `src/main.rs`: GPU handles are opaque to the
embedded code and modelled abstractly. -/
structure State where
  device : Nat
  queue : Nat
  surface : Nat
  config : SurfaceConfiguration
  size : PhysicalSize
deriving DecidableEq

/-- `winit::event::ElementState`. -/
inductive ElementState where
  | pressed
  | released
deriving DecidableEq

/-- `winit::event::VirtualKeyCode`: Escape, or any other keycode. -/
inductive VirtualKeyCode where
  | escape
  | other (code : Nat)
deriving DecidableEq

/-- `winit::event::KeyboardInput` (the fields the source reads). -/
structure KeyboardInput where
  state : ElementState
  virtual_keycode : Option VirtualKeyCode
deriving DecidableEq

/-- `winit::event::WindowEvent` (the variants the source matches on,
and an opaque remainder). -/
inductive WindowEvent where
  | keyboardInput (input : KeyboardInput)
  | closeRequested
  | resized (physical_size : PhysicalSize)
  | scaleFactorChanged (new_inner_size : PhysicalSize)
  | otherWindowEvent (code : Nat)
deriving DecidableEq

/-- `State::resize` from `src/main.rs`: stores the new size and updates
the surface configuration's width and height (the `surface.configure`
call is an external side effect with no `State` field change). -/
def State.resize (s : State) (new_size : PhysicalSize) : State :=
  { s with
    size := new_size
    config := { s.config with
      width := new_size.width
      height := new_size.height } }

/-- `State::input` from `src/main.rs`: returns whether the event was
handled; `&mut self` is modelled by also returning the (unchanged)
state. -/
def State.input (s : State) (event : WindowEvent) : Bool × State :=
  match event with
  | .keyboardInput input =>
    match input.virtual_keycode with
    | some keycode =>
      match keycode with
      | .escape => (true, s)
      | _ => (false, s)
    | none => (false, s)
  | _ => (false, s)

/-- `winit::event_loop::ControlFlow` (the variants the source sets). -/
inductive ControlFlow where
  | poll
  | exit
deriving DecidableEq

/-- `wgpu::SurfaceError`. -/
inductive SurfaceError where
  | timeout
  | outdated
  | lost
  | outOfMemory
deriving DecidableEq

/-- `winit::event::Event` as dispatched by the closure in `main`:
window events carry whether `window_id == window.id()`; a redraw
carries the outcome of `State::render` (`none` for `Ok`); the remaining
variants are opaque. -/
inductive Event where
  | windowEvent (event : WindowEvent) (window_id_matches : Bool)
  | redrawRequested (renderResult : Option SurfaceError)
  | mainEventsCleared (redrawDue : Bool)
  | otherEvent (code : Nat)
deriving DecidableEq

/-- One iteration of the event-loop closure in `main` of
`src/main.rs`: `control_flow` is first set to `Poll`, then possibly
overwritten; the resulting state and control flow are returned. -/
def handleEvent (s : State) (ev : Event) : State × ControlFlow :=
  match ev with
  | .windowEvent e window_id_matches =>
    if window_id_matches then
      let p := State.input s e
      if p.1 then (p.2, .poll)
      else
        match e with
        | .closeRequested => (p.2, .exit)
        | .keyboardInput ⟨.pressed, some .escape⟩ => (p.2, .exit)
        | .resized physical_size => (p.2.resize physical_size, .poll)
        | .scaleFactorChanged new_inner_size =>
          (p.2.resize new_inner_size, .poll)
        | _ => (p.2, .poll)
    else (s, .poll)
  | .redrawRequested renderResult =>
    match renderResult with
    | none => (s, .poll)
    | some .lost => (s.resize s.size, .poll)
    | some .outOfMemory => (s, .exit)
    | some _ => (s, .poll)
  | .mainEventsCleared _ => (s, .poll)
  | .otherEvent _ => (s, .poll)

/-- C8: `State::input` returns true exactly on keyboard input whose
virtual keycode is Some(Escape) — regardless of pressed or released
state — returns false on every other event (including keyboard input
with no virtual keycode), and always leaves the state unchanged. -/
theorem state_input_spec (s : State) (e : WindowEvent) :
    ((State.input s e).1 = true ↔
      ∃ st : ElementState,
        e = .keyboardInput ⟨st, some .escape⟩) ∧
    (State.input s e).2 = s := by
  constructor
  · cases e with
    | keyboardInput input =>
      obtain ⟨st, vk⟩ := input
      cases vk with
      | none => simp [State.input]
      | some kc =>
        cases kc with
        | escape =>
          simp only [State.input, true_iff]
          exact ⟨st, rfl⟩
        | other c => simp [State.input]
    | closeRequested => simp [State.input]
    | resized sz => simp [State.input]
    | scaleFactorChanged sz => simp [State.input]
    | otherWindowEvent c => simp [State.input]
  · cases e with
    | keyboardInput input =>
      obtain ⟨st, vk⟩ := input
      cases vk with
      | none => rfl
      | some kc => cases kc <;> rfl
    | closeRequested => rfl
    | resized sz => rfl
    | scaleFactorChanged sz => rfl
    | otherWindowEvent c => rfl

/-- C9: the Escape arm of the event loop is unreachable because
`State::input` already handles every Escape keyboard event, so no
keyboard input ever sets `ControlFlow::Exit`: the loop exits only on
`CloseRequested` (for the right window) or an `OutOfMemory` render
failure. -/
theorem event_loop_exit_iff (s : State) (ev : Event) :
    ((handleEvent s ev).2 = ControlFlow.exit ↔
      ev = .windowEvent .closeRequested true ∨
      ev = .redrawRequested (some .outOfMemory)) ∧
    (∀ (input : KeyboardInput) (idm : Bool),
      (handleEvent s (.windowEvent (.keyboardInput input) idm)).2
        = ControlFlow.poll) := by
  constructor
  · cases ev with
    | windowEvent e idm =>
      cases idm with
      | false => simp [handleEvent]
      | true =>
        cases e with
        | keyboardInput input =>
          obtain ⟨st, vk⟩ := input
          cases vk with
          | none => cases st <;> simp [handleEvent, State.input]
          | some kc =>
            cases kc with
            | escape => cases st <;> simp [handleEvent, State.input]
            | other c => cases st <;> simp [handleEvent, State.input]
        | closeRequested => simp [handleEvent, State.input]
        | resized sz => simp [handleEvent, State.input]
        | scaleFactorChanged sz => simp [handleEvent, State.input]
        | otherWindowEvent c => simp [handleEvent, State.input]
    | redrawRequested res =>
      cases res with
      | none => simp [handleEvent]
      | some err => cases err <;> simp [handleEvent]
    | mainEventsCleared b => simp [handleEvent]
    | otherEvent c => simp [handleEvent]
  · intro input idm
    obtain ⟨st, vk⟩ := input
    cases idm with
    | false => rfl
    | true =>
      cases vk with
      | none => cases st <;> rfl
      | some kc =>
        cases kc with
        | escape => cases st <;> rfl
        | other c => cases st <;> rfl

/-- C10: `State::resize` updates only the stored size and the width and
height of the surface configuration; every other configuration field
and the device, queue and surface handles are unchanged. -/
theorem state_resize_frame (s : State) (new_size : PhysicalSize) :
    (s.resize new_size).size = new_size ∧
    (s.resize new_size).config.width = new_size.width ∧
    (s.resize new_size).config.height = new_size.height ∧
    (s.resize new_size).config.usage = s.config.usage ∧
    (s.resize new_size).config.format = s.config.format ∧
    (s.resize new_size).config.present_mode = s.config.present_mode ∧
    (s.resize new_size).config.alpha_mode = s.config.alpha_mode ∧
    (s.resize new_size).config.view_formats = s.config.view_formats ∧
    (s.resize new_size).device = s.device ∧
    (s.resize new_size).queue = s.queue ∧
    (s.resize new_size).surface = s.surface :=
  ⟨rfl, rfl, rfl, rfl, rfl, rfl, rfl, rfl, rfl, rfl, rfl⟩
